import Mathlib

/-!
# Shallow embedding of the rent-a-bot resource-locking and reservation engine

This development embeds the core of `rentabot/controllers.py` (the lock
manager, tag matcher, batch locker, reservation manager, and the two
background loops) as executable Lean functions and proves properties of
them.

Modelling conventions:
* Timestamps and durations are integers (seconds).  `datetime.now(...)` is
  modelled by passing the sampled time `now` as an explicit argument;
  `isoformat()` is modelled by `toString`.
* `str(uuid4())` (a fresh opaque token) is modelled by an explicit token
  supply `toks : Nat -> String` together with a counter: the k-th token a
  call draws is `toks (c + k)`.  Freshness and distinctness of the supply
  become explicit hypotheses where a property depends on them.
* The Python dicts `resources_by_id` / `reservations_by_id` are modelled as
  lists in dict insertion order (one entry per key).  `d[k] = v` for an
  existing key replaces the entry in place (`setRes` / `setResv`);
  `dict.values()` enumerates in that order.  The catalog loader inserts
  resources with ids 1, 2, ... in order and every later write replaces an
  existing key, so "ascending id order" appears below as the hypothesis
  that the resource list is sorted by id.
* Python exceptions are modelled with `Except`: a run that raises returns
  `.error e` and, because every mutation in the source happens only after
  all the checks that can raise, an `.error` result leaves the state
  argument untouched by construction.
* `lock_token` is a `String` exactly as in the source: the empty string
  means unlocked (`if resource.lock_token:` is Python truthiness).
-/

namespace Rentabot

/-- The exception kinds raised by `rentabot.controllers`
(`rentabot/exceptions.py`). -/
inductive Err where
  | resourceNotFound
  | resourceAlreadyLocked
  | resourceAlreadyUnlocked
  | invalidLockToken
  | invalidTTL
  | insufficientResources
  | invalidReservationTags
  | reservationNotFound
  | reservationNotFulfilled
  | reservationClaimExpired
  | reservationCannotBeCancelled
  deriving DecidableEq, Repr

/-- A resource record (the pydantic `Resource` model, as used by
`controllers.py`: identity fields plus the four lock fields;
`max_lock_duration` defaults to 86400 per the spec's data model).
`lock_token = ""` means unlocked. -/
structure Resource where
  id : Nat
  name : String
  description : String := ""
  endpoint : String := ""
  tags : String := ""
  max_lock_duration : Int := 86400
  lock_token : String := ""
  lock_details : String := "Resource available"
  lock_acquired_at : Option Int := none
  lock_expires_at : Option Int := none
  deriving DecidableEq, Repr

/-- Reservation status (`status` strings "pending" / "fulfilled" /
"claimed" in the source). -/
inductive RStatus where
  | pending
  | fulfilled
  | claimed
  deriving DecidableEq, Repr

/-- A reservation record (the pydantic `Reservation` model as used by
`controllers.py`). -/
structure Reservation where
  reservation_id : String
  tags : List String
  quantity : Nat
  ttl : Int
  status : RStatus
  created_at : Int
  expires_at : Int
  fulfilled_at : Option Int := none
  claim_expires_at : Option Int := none
  claimed_at : Option Int := none
  resource_ids : List Nat := []
  lock_tokens : List String := []
  deriving DecidableEq, Repr

/-- `resources_by_id.get(i)` : first record with the given id. -/
def findRes (rs : List Resource) (i : Nat) : Option Resource :=
  rs.find? (fun r => r.id = i)

/-- `resources_by_id[r.id] = r` for an existing key: replace in place,
keeping dict order. -/
def setRes (rs : List Resource) (r : Resource) : List Resource :=
  rs.map (fun x => if x.id = r.id then r else x)

/-- `reservations_by_id.get(i)`. -/
def findResv (rvs : List Reservation) (i : String) : Option Reservation :=
  rvs.find? (fun r => r.reservation_id = i)

/-- `reservations_by_id[r.reservation_id] = r` for an existing key. -/
def setResv (rvs : List Reservation) (r : Reservation) : List Reservation :=
  rvs.map (fun x => if x.reservation_id = r.reservation_id then r else x)

/-- Python `s.split(",")` at the character level: cut the character list
at every comma (neighbouring commas produce empty pieces, as in Python). -/
def splitComma (acc : List Char) : List Char → List (List Char)
  | [] => [acc.reverse]
  | c :: cs =>
      if c = ',' then acc.reverse :: splitComma [] cs
      else splitComma (c :: acc) cs

/-- Python `s.strip()`: drop leading and trailing whitespace. -/
def trimChars (cs : List Char) : List Char :=
  ((cs.dropWhile Char.isWhitespace).reverse.dropWhile Char.isWhitespace).reverse

/-- `[tag.strip() for tag in s.split(",") if tag.strip()]` -/
def parsedTags (s : String) : List String :=
  ((splitComma [] s.data).map (fun cs => String.mk (trimChars cs))).filter
    (fun t => t ≠ "")

/-- The matching test used everywhere in `controllers.py`:
`resource.tags` is truthy and
`set(parsed_tags).intersection(set(required)) == set(required)`,
i.e. every required tag occurs among the parsed tags. -/
def tagsMatch (required : List String) (r : Resource) : Bool :=
  r.tags ≠ "" && required.all (fun t => (parsedTags r.tags).contains t)

/-- `get_resources_from_tags` (controllers.py:63): filter by `tagsMatch`,
raise `ResourceNotFound` when nothing matched. -/
def get_resources_from_tags (rs : List Resource) (required : List String) :
    Except Err (List Resource) :=
  let out := rs.filter (tagsMatch required)
  if out.isEmpty then .error .resourceNotFound else .ok out

/-- `lock_resource` (controllers.py:91).  `tok` models the fresh
`str(uuid4())`.  Returns the token, the updated record and the updated
map. -/
def lock_resource (rs : List Resource) (resource_id : Nat) (ttl : Int)
    (now : Int) (tok : String) :
    Except Err (String × Resource × List Resource) :=
  match findRes rs resource_id with
  | none => .error .resourceNotFound
  | some r =>
    if r.lock_token ≠ "" then .error .resourceAlreadyLocked
    else if ttl > r.max_lock_duration then .error .invalidTTL
    else
      let r2 : Resource :=
        { r with lock_token := tok, lock_details := "Resource locked",
                 lock_acquired_at := some now,
                 lock_expires_at := some (now + ttl) }
      .ok (tok, r2, setRes rs r2)

/-- `unlock_resource` (controllers.py:147).  The user-supplied token is
`str | None` in the source, hence `Option String` here; the comparison
`lock_token != resource.lock_token` is `tok ≠ some r.lock_token`. -/
def unlock_resource (rs : List Resource) (resource_id : Nat)
    (tok : Option String) : Except Err (List Resource) :=
  match findRes rs resource_id with
  | none => .error .resourceNotFound
  | some r =>
    if r.lock_token = "" then .error .resourceAlreadyUnlocked
    else if tok ≠ some r.lock_token then .error .invalidLockToken
    else
      let r2 : Resource :=
        { r with lock_token := "", lock_details := "Resource available",
                 lock_acquired_at := none, lock_expires_at := none }
      .ok (setRes rs r2)

/-- `extend_resource_lock` (controllers.py:189). -/
def extend_resource_lock (rs : List Resource) (resource_id : Nat)
    (tok : String) (additional_ttl : Int) (now : Int) :
    Except Err (Resource × List Resource) :=
  match findRes rs resource_id with
  | none => .error .resourceNotFound
  | some r =>
    if r.lock_token = "" then .error .resourceAlreadyUnlocked
    else if tok ≠ r.lock_token then .error .invalidLockToken
    else
      let new_expires_at := now + additional_ttl
      let total_duration :=
        match r.lock_acquired_at with
        | some a => new_expires_at - a
        | none => additional_ttl
      if total_duration > r.max_lock_duration then .error .invalidTTL
      else
        let r2 : Resource := { r with lock_expires_at := some new_expires_at }
        .ok (r2, setRes rs r2)

/-- The cleared record an unlock writes back: all four lock fields reset
and `lock_details = "Resource available"`. -/
def clearRes (r : Resource) : Resource :=
  { r with lock_token := "", lock_details := "Resource available",
           lock_acquired_at := none, lock_expires_at := none }

/-- `unlock_resource_by_token` (controllers.py:369): find the first
resource carrying the token (dict iteration order) and clear its lock
fields. -/
def unlock_resource_by_token (rs : List Resource) (tok : String) :
    Except Err (List Resource) :=
  match rs.find? (fun r => r.lock_token = tok) with
  | none => .error .resourceNotFound
  | some r => .ok (setRes rs (clearRes r))

/-- The `available` filter of `lock_resources_by_tags` (controllers.py:425):
skip resources with falsy `tags`, skip locked resources, keep those whose
parsed tags contain every required tag.  (`tagsMatch` already includes the
falsy-tags skip.) -/
def availFilter (rs : List Resource) (tags : List String) : List Resource :=
  rs.filter (fun r => r.lock_token = "" && tagsMatch tags r)

/-- The lock loop of `lock_resources_by_tags` (controllers.py:465): each
resource in turn receives the next fresh token from the supply. -/
def lockTagged (toks : Nat → String) (now ttl : Int) :
    Nat → List Resource → List Resource
  | _, [] => []
  | c, r :: rest =>
      { r with lock_token := toks c,
               lock_details := "Resource locked (reservation)",
               lock_acquired_at := some now,
               lock_expires_at := some (now + ttl) }
        :: lockTagged toks now ttl (c + 1) rest

/-- `lock_resources_by_tags` (controllers.py:405).  `toks`/`c` model the
stream of fresh `uuid4()` tokens; on success it returns the locked
records, the updated map and the advanced counter. -/
def lock_resources_by_tags (rs : List Resource) (tags : List String)
    (quantity : Nat) (ttl : Int) (now : Int) (toks : Nat → String)
    (c : Nat) : Except Err (List Resource × List Resource × Nat) :=
  let available := availFilter rs tags
  if available.length < quantity then .error .insufficientResources
  else
    let to_lock := available.take quantity
    if to_lock.any (fun r => ttl > r.max_lock_duration) then .error .invalidTTL
    else
      let locked := lockTagged toks now ttl c to_lock
      .ok (locked, locked.foldl setRes rs, c + locked.length)

/-- `reservations_by_id[rid] = resv` for a possibly-new key: replace if
the key exists, otherwise append (dict insertion). -/
def insertResv (rvs : List Reservation) (resv : Reservation) :
    List Reservation :=
  if rvs.any (fun x => x.reservation_id = resv.reservation_id) then
    setResv rvs resv
  else rvs ++ [resv]

/-- `create_reservation` (controllers.py:481).  `rid` models the fresh
`res_<uuid4>` id.  Note the source validates only that the tag list is
non-empty and that at least one resource matches the tags; it performs no
TTL-compatibility check (a `matching_count < quantity` shortfall is merely
logged). -/
def create_reservation (rs : List Resource) (rvs : List Reservation)
    (tags : List String) (quantity : Nat) (max_wait_time : Int)
    (ttl : Int) (now : Int) (rid : String) :
    Except Err (Reservation × List Reservation) :=
  if tags.isEmpty then .error .invalidReservationTags
  else
    let matching_count := (rs.filter (tagsMatch tags)).length
    if matching_count = 0 then .error .resourceNotFound
    else
      let resv : Reservation :=
        { reservation_id := rid, tags := tags, quantity := quantity,
          ttl := ttl, status := .pending, created_at := now,
          expires_at := now + max_wait_time }
      .ok (resv, insertResv rvs resv)

/-- `claim_expires_at and claim_expires_at <= now`. -/
def claimExpLe (r : Reservation) (now : Int) : Bool :=
  match r.claim_expires_at with
  | some t => t ≤ now
  | none => false

/-- `claim_reservation` (controllers.py:581). -/
def claim_reservation (rvs : List Reservation) (reservation_id : String)
    (now : Int) : Except Err (Reservation × List Reservation) :=
  match findResv rvs reservation_id with
  | none => .error .reservationNotFound
  | some r =>
    if r.status = .pending then .error .reservationNotFulfilled
    else if r.status ≠ .fulfilled then .error .reservationNotFound
    else if claimExpLe r now then .error .reservationClaimExpired
    else
      let r2 : Reservation := { r with status := .claimed, claimed_at := some now }
      .ok (r2, setResv rvs r2)

/-- `lock_expires_at is not None and lock_expires_at <= now`. -/
def expiresLe (r : Resource) (now : Int) : Bool :=
  match r.lock_expires_at with
  | some e => e ≤ now
  | none => false

/-- The cleared record written by the reaper (controllers.py:303). -/
def autoExpired (r : Resource) (now : Int) : Resource :=
  { r with lock_token := "",
           lock_details := "Auto-expired at " ++ toString now,
           lock_acquired_at := none, lock_expires_at := none }

/-- One re-check-and-unlock step of `auto_expire_locks`
(controllers.py:293-311): under the resource mutex, look the snapshot
entry up again in the current map and clear it only if it is still locked
and still expired. -/
def expireOne (now : Int) (cur : List Resource) (snap : Resource) :
    List Resource :=
  match findRes cur snap.id with
  | none => cur
  | some current =>
    if current.lock_token ≠ "" && expiresLe current now then
      setRes cur (autoExpired current now)
    else cur

/-- One tick of `auto_expire_locks` (controllers.py:268): collect the
expired entries of the snapshot, then re-check each against the current
map.  `snapshot` and `cur` are separate arguments because user operations
may run between the snapshot and the re-checks. -/
def reapTick (snapshot cur : List Resource) (now : Int) : List Resource :=
  let expired := snapshot.filter (fun r => r.lock_token ≠ "" && expiresLe r now)
  expired.foldl (expireOne now) cur

/-- `unlock_resource_by_token` with `ResourceNotFound` swallowed, as in
Phase B of `auto_fulfill_reservations` (controllers.py:736-742). -/
def tryUnlockByToken (rs : List Resource) (tok : String) : List Resource :=
  match unlock_resource_by_token rs tok with
  | .ok rs2 => rs2
  | .error _ => rs

/-- One step of Phase B (controllers.py:734-755): unlock every lock token
held by the expired-unclaimed reservation (swallowing `ResourceNotFound`),
then re-check the current record and delete it if still fulfilled and
still claim-expired. -/
def phaseBOne (now : Int) (st : List Resource × List Reservation)
    (snap : Reservation) : List Resource × List Reservation :=
  let rs2 := snap.lock_tokens.foldl tryUnlockByToken st.1
  match findResv st.2 snap.reservation_id with
  | none => (rs2, st.2)
  | some current =>
    if current.status = .fulfilled && claimExpLe current now then
      (rs2, st.2.filter (fun x => x.reservation_id ≠ snap.reservation_id))
    else (rs2, st.2)

/-- Phase B of one `auto_fulfill_reservations` tick (controllers.py:724):
process every snapshot reservation that is fulfilled and claim-expired. -/
def phaseB (snapshot : List Reservation) (rs : List Resource)
    (rvs : List Reservation) (now : Int) :
    List Resource × List Reservation :=
  let expired := snapshot.filter (fun r => r.status = .fulfilled && claimExpLe r now)
  expired.foldl (phaseBOne now) (rs, rvs)

/-- Every record of `cur` is an original record of `rs` or the cleared
copy of one — the only kind of write Phase B performs on resources. -/
def onlyCleared (rs cur : List Resource) : Prop :=
  ∀ y ∈ cur, y ∈ rs ∨ ∃ o ∈ rs, y = clearRes o

/-- The entry keyed `x.id` is still exactly `x`, or already unlocked. -/
def entryClearedOr (x : Resource) (cur : List Resource) : Prop :=
  findRes cur x.id = some x ∨
    ∃ c, findRes cur x.id = some c ∧ c.lock_token = ""

/-- The entry keyed `x.id` is unlocked. -/
def entryCleared (x : Resource) (cur : List Resource) : Prop :=
  ∃ c, findRes cur x.id = some c ∧ c.lock_token = ""

/-- The fulfilled record written by Phase C (controllers.py:778-786). -/
def fulfilledWith (current : Reservation) (now : Int)
    (locked : List Resource) : Reservation :=
  { current with status := .fulfilled, fulfilled_at := some now,
                 claim_expires_at := some (now + 60),
                 resource_ids := locked.map (fun r => r.id),
                 lock_tokens := locked.map (fun r => r.lock_token) }

/-- One step of Phase C (controllers.py:763-801): attempt the batch lock
with the reservation's own tags/quantity/ttl; on any error leave the state
alone (`InsufficientResources` skips, other errors are logged and
swallowed); on success re-check under the reservation mutex that the
current record is still pending before rewriting it. -/
def phaseCOne (now : Int) (toks : Nat → String)
    (st : List Resource × List Reservation × Nat) (snap : Reservation) :
    List Resource × List Reservation × Nat :=
  match lock_resources_by_tags st.1 snap.tags snap.quantity snap.ttl now toks st.2.2 with
  | .error _ => st
  | .ok (locked, rs2, c2) =>
    match findResv st.2.1 snap.reservation_id with
    | none => (rs2, st.2.1, c2)
    | some current =>
      if current.status = .pending then
        (rs2, setResv st.2.1 (fulfilledWith current now locked), c2)
      else (rs2, st.2.1, c2)

/-- Stable insertion into a list sorted ascending by `created_at`. -/
def insertByCreated (r : Reservation) : List Reservation → List Reservation
  | [] => [r]
  | x :: xs =>
      if r.created_at ≤ x.created_at then r :: x :: xs
      else x :: insertByCreated r xs

/-- `pending.sort(key=lambda r: r.created_at)` : a stable sort ascending
by `created_at` (insertion sort, extensionally Python's stable sort). -/
def sortByCreated : List Reservation → List Reservation
  | [] => []
  | x :: xs => insertByCreated x (sortByCreated xs)

/-- Phase C of one `auto_fulfill_reservations` tick (controllers.py:757):
enumerate the pending reservations sorted ascending by `created_at`
(Python's stable sort) and attempt each in turn. -/
def phaseC (rs : List Resource) (rvs : List Reservation) (now : Int)
    (toks : Nat → String) (c : Nat) :
    List Resource × List Reservation × Nat :=
  let pending := sortByCreated (rvs.filter (fun r => r.status = .pending))
  pending.foldl (phaseCOne now toks) (rs, rvs, c)

/-!
## Control-flow skeletons of the four lock-manager operations

For the concurrency discipline we embed each operation's body as the
sequence of primitive steps it performs on the shared resource map, with
the `async with resource_lock:` block made explicit.  A reviewer can read
each list directly off the corresponding function body in
`controllers.py`.  Under Python's asyncio the only suspension points in
these bodies are mutex acquisitions, so a body with no `acquire` step
still runs without interleaving — but it does not hold the mutex.
-/

/-- A primitive step of a lock-manager operation on the shared resource
state: entering / leaving `async with resource_lock`, reading a record
from `resources_by_id`, validating it, or writing a record back. -/
inductive Step where
  | acquire
  | release
  | read
  | check
  | write
  deriving DecidableEq, Repr

/-- `lock_resource` (controllers.py:91-144): `async with resource_lock:`
around lookup, already-locked check, TTL check, and the write. -/
def lockResourceSteps : List Step :=
  [.acquire, .read, .check, .check, .write, .release]

/-- `unlock_resource` (controllers.py:147-186): lookup, already-unlocked
check, token check, write — with **no** `async with resource_lock:`
anywhere in the body. -/
def unlockResourceSteps : List Step :=
  [.read, .check, .check, .write]

/-- `extend_resource_lock` (controllers.py:189-265): `async with
resource_lock:` around lookup, unlocked check, token check, TTL check and
the write. -/
def extendResourceLockSteps : List Step :=
  [.acquire, .read, .check, .check, .check, .write, .release]

/-- `unlock_resource_by_token` (controllers.py:369-402): `async with
resource_lock:` around the scan, the not-found check and the write. -/
def unlockResourceByTokenSteps : List Step :=
  [.acquire, .read, .check, .write, .release]

/-- A step list holds the resource mutex throughout its
read-check-update work when every `read`/`check`/`write` step occurs at
positive mutex depth. -/
def underMutexFrom : Nat → List Step → Bool
  | _, [] => true
  | d, .acquire :: l => underMutexFrom (d + 1) l
  | d, .release :: l => underMutexFrom (d - 1) l
  | d, _ :: l => d > 0 && underMutexFrom d l

/-- Every read-check-update step of the operation is performed while
holding the resource mutex. -/
def underMutex (l : List Step) : Bool := underMutexFrom 0 l

/-- Acquiring a mutex is the only suspension point these bodies contain;
a body with no `acquire` step runs atomically under cooperative
(asyncio) scheduling even without the mutex. -/
def hasSuspension (l : List Step) : Bool := l.contains .acquire

/-!
## Concrete instances used by the closed theorems and witnesses
-/

/-- A catalog entry matching the tag `gpu` whose `max_lock_duration`
(3600 s) is below the reservation ttl used in
`tests/test_reservations.py::test_create_reservation_ttl_exceeds_max_lock_duration`. -/
def gpuDevice : Resource :=
  { id := 1, name := "device-1", tags := "gpu", max_lock_duration := 3600 }

/-- A resource with an empty tag string (never matched by the matcher). -/
def untaggedDevice : Resource := { id := 1, name := "r", tags := "" }

/-- Catalog entries from spec scenario 3. -/
def arduino1 : Resource := { id := 1, name := "arduino-1", tags := "arduino,leds" }

def arduino2 : Resource := { id := 2, name := "arduino-2", tags := "arduino,motors" }

/-- A resource locked under token `"T"`, acquired at time 0 with a
two-hour cap, as in spec scenario 4. -/
def lockedDevice : Resource :=
  { id := 1, name := "device-1", tags := "ci,linux", max_lock_duration := 7200,
    lock_token := "T", lock_details := "Resource locked",
    lock_acquired_at := some 0, lock_expires_at := some 3600 }

/-- `arduino1` as locked by a batch lock at time 0 with `ttl = 60` under
the fresh token `"T0"`. -/
def arduino1Locked : Resource :=
  { arduino1 with lock_token := "T0",
                  lock_details := "Resource locked (reservation)",
                  lock_acquired_at := some 0, lock_expires_at := some (0 + 60) }

/-- `lockedDevice` after a successful unlock: all four lock fields
cleared. -/
def unlockedDevice : Resource :=
  { lockedDevice with lock_token := "", lock_details := "Resource available",
                      lock_acquired_at := none, lock_expires_at := none }

/-- A reaper-snapshot record: locked under `"T"` and already expired
(`lock_expires_at = 5`). -/
def staleSnapshot : Resource :=
  { id := 1, name := "d", tags := "", lock_token := "T",
    lock_details := "Resource locked", lock_acquired_at := some 0,
    lock_expires_at := some 5 }

/-- The same resource after the user extended the lock between the
reaper's snapshot and its re-check: now expiring at 100. -/
def extendedCurrent : Resource :=
  { staleSnapshot with lock_expires_at := some 100 }

/-- A single unlocked resource tagged `ci`. -/
def ciResource : Resource := { id := 1, name := "ci-1", tags := "ci" }

/-- `ciResource` as locked by a Phase C batch lock at time 100 with
`ttl = 30` under the fresh token `"tok"`. -/
def ciResourceLocked : Resource :=
  { ciResource with lock_token := "tok",
                    lock_details := "Resource locked (reservation)",
                    lock_acquired_at := some 100,
                    lock_expires_at := some (100 + 30) }

/-- An early pending reservation asking for two `ci` resources
(infeasible when only one exists). -/
def resvA : Reservation :=
  { reservation_id := "res_A", tags := ["ci"], quantity := 2, ttl := 30,
    status := .pending, created_at := 0, expires_at := 1000 }

/-- The same early reservation asking for one resource (feasible). -/
def resvA1 : Reservation :=
  { reservation_id := "res_A", tags := ["ci"], quantity := 1, ttl := 30,
    status := .pending, created_at := 0, expires_at := 1000 }

/-- A later pending reservation asking for one `ci` resource. -/
def resvB : Reservation :=
  { reservation_id := "res_B", tags := ["ci"], quantity := 1, ttl := 30,
    status := .pending, created_at := 5, expires_at := 1000 }

/-- A fulfilled reservation whose claim window closes at time 50. -/
def fulfilledResv : Reservation :=
  { reservation_id := "res_a", tags := ["ci"], quantity := 1, ttl := 600,
    status := .fulfilled, created_at := 0, expires_at := 1000,
    fulfilled_at := some 20, claim_expires_at := some 50,
    resource_ids := [1], lock_tokens := ["T"] }

/-!
## Helper lemmas about the list-backed maps
-/

theorem findRes_cons (a : Resource) (l : List Resource) (i : Nat) :
    findRes (a :: l) i = if a.id = i then some a else findRes l i := by
  by_cases h : a.id = i <;> simp [findRes, List.find?_cons, h]

theorem setRes_cons (a : Resource) (l : List Resource) (r : Resource) :
    setRes (a :: l) r = (if a.id = r.id then r else a) :: setRes l r := rfl

theorem findRes_setRes_ne (rs : List Resource) (r : Resource) (i : Nat)
    (h : i ≠ r.id) : findRes (setRes rs r) i = findRes rs i := by
  induction rs with
  | nil => rfl
  | cons a l ih =>
    rw [setRes_cons, findRes_cons, findRes_cons]
    by_cases ha : a.id = r.id
    · have : ¬ r.id = i := fun hc => h hc.symm
      simp [ha, this, ih]
    · by_cases hai : a.id = i <;> simp [ha, hai, h, ih]

theorem findRes_setRes_self (rs : List Resource) (r : Resource)
    (h : (findRes rs r.id).isSome) :
    findRes (setRes rs r) r.id = some r := by
  induction rs with
  | nil => simp [findRes] at h
  | cons a l ih =>
    rw [setRes_cons, findRes_cons]
    rw [findRes_cons] at h
    by_cases ha : a.id = r.id
    · simp [ha]
    · simp only [ha, if_false] at h ⊢
      exact ih h

theorem findRes_isSome_of_mem (rs : List Resource) (x : Resource)
    (hx : x ∈ rs) : (findRes rs x.id).isSome := by
  induction rs with
  | nil => cases hx
  | cons a l ih =>
    rw [findRes_cons]
    by_cases ha : a.id = x.id
    · simp [ha]
    · simp only [ha, if_false]
      rcases List.mem_cons.mp hx with h | h
      · exact absurd (h ▸ rfl) ha
      · exact ih h

theorem findRes_eq_of_mem_sorted (rs : List Resource) (x : Resource)
    (hs : rs.Pairwise (fun a b => a.id < b.id)) (hx : x ∈ rs) :
    findRes rs x.id = some x := by
  induction rs with
  | nil => cases hx
  | cons a l ih =>
    rw [findRes_cons]
    rcases List.mem_cons.mp hx with h | h
    · subst h; simp
    · have hlt : a.id < x.id := (List.pairwise_cons.mp hs).1 x h
      have : ¬ a.id = x.id := by omega
      simp only [this, if_false]
      exact ih (List.pairwise_cons.mp hs).2 h

theorem foldl_setRes_of_forall_ne (L : List Resource) (rs : List Resource)
    (i : Nat) (h : ∀ l ∈ L, l.id ≠ i) :
    findRes (L.foldl setRes rs) i = findRes rs i := by
  induction L generalizing rs with
  | nil => rfl
  | cons a L ih =>
    rw [List.foldl_cons, ih _ (fun l hl => h l (List.mem_cons_of_mem a hl)),
      findRes_setRes_ne]
    exact fun hc => h a (List.mem_cons_self a L) hc.symm

theorem foldl_setRes_of_mem (L : List Resource) (rs : List Resource)
    (x : Resource) (hx : x ∈ L) (hnd : (L.map (fun r => r.id)).Nodup)
    (hsome : (findRes rs x.id).isSome) :
    findRes (L.foldl setRes rs) x.id = some x := by
  induction L generalizing rs with
  | nil => cases hx
  | cons a L ih =>
    rw [List.map_cons, List.nodup_cons] at hnd
    rcases List.mem_cons.mp hx with h | h
    · subst h
      rw [List.foldl_cons,
        foldl_setRes_of_forall_ne _ _ _
          (fun l hl hc => hnd.1 (by
            rw [← hc]
            exact List.mem_map_of_mem (fun r => r.id) hl))]
      exact findRes_setRes_self rs x hsome
    · rw [List.foldl_cons]
      have hne : x.id ≠ a.id := by
        intro hc
        exact hnd.1 (by
          rw [← hc]
          exact List.mem_map_of_mem (fun r => r.id) h)
      refine ih _ h hnd.2 ?_
      rw [findRes_setRes_ne _ _ _ hne]
      exact hsome

theorem lockTagged_getq (toks : Nat → String) (now ttl : Int) :
    ∀ (L : List Resource) (c k : Nat),
      (lockTagged toks now ttl c L).get? k =
        (L.get? k).map (fun r =>
          { r with lock_token := toks (c + k),
                   lock_details := "Resource locked (reservation)",
                   lock_acquired_at := some now,
                   lock_expires_at := some (now + ttl) }) := by
  intro L
  induction L with
  | nil => intro c k; rfl
  | cons a L ih =>
    intro c k
    cases k with
    | zero => rfl
    | succ k =>
      have := ih (c + 1) k
      simpa [lockTagged, Nat.add_assoc, Nat.add_comm 1 k] using this

theorem lockTagged_length (toks : Nat → String) (now ttl : Int) :
    ∀ (L : List Resource) (c : Nat),
      (lockTagged toks now ttl c L).length = L.length := by
  intro L
  induction L with
  | nil => intro c; rfl
  | cons a L ih => intro c; simp [lockTagged, ih]

theorem lockTagged_token_getElem (toks : Nat → String) (now ttl : Int)
    (L : List Resource) (c k : Nat)
    (h : k < (lockTagged toks now ttl c L).length) :
    (lockTagged toks now ttl c L)[k].lock_token = toks (c + k) := by
  have hkL : k < L.length := by
    rw [lockTagged_length] at h
    exact h
  have hk : (lockTagged toks now ttl c L).get? k =
      some ((lockTagged toks now ttl c L)[k]) := List.get?_eq_get h
  rw [lockTagged_getq, List.get?_eq_get hkL, Option.map_some'] at hk
  have := Option.some.inj hk
  rw [← this]

theorem lockTagged_map_id (toks : Nat → String) (now ttl : Int) :
    ∀ (L : List Resource) (c : Nat),
      (lockTagged toks now ttl c L).map (fun r => r.id) =
        L.map (fun r => r.id) := by
  intro L
  induction L with
  | nil => intro c; rfl
  | cons a L ih => intro c; simp [lockTagged, ih]

theorem expireOne_cases (now : Int) (cur : List Resource) (s : Resource)
    (i : Nat) :
    findRes (expireOne now cur s) i = findRes cur i ∨
    ∃ old, findRes cur i = some old ∧ old.lock_token ≠ "" ∧
      expiresLe old now = true ∧
      findRes (expireOne now cur s) i = some (autoExpired old now) := by
  rw [expireOne]
  cases hc : findRes cur s.id with
  | none => left; rfl
  | some current =>
    have hid : current.id = s.id := by
      have := List.find?_some hc
      simpa using this
    by_cases hb : (current.lock_token ≠ "" && expiresLe current now) = true
    · simp only [hb, if_true]
      have hb' : current.lock_token ≠ "" ∧ expiresLe current now = true := by
        simpa using hb
      have htok := hb'.1
      have hb2 := hb'.2
      by_cases hi : i = current.id
      · right
        refine ⟨current, ?_, htok, hb2, ?_⟩
        · rw [hi, hid]; exact hc
        · have hsome : (findRes cur (autoExpired current now).id).isSome := by
            show (findRes cur current.id).isSome
            rw [hid, hc]; rfl
          have := findRes_setRes_self cur (autoExpired current now) hsome
          rw [hi]
          exact this
      · left
        exact findRes_setRes_ne cur (autoExpired current now) i hi
    · simp only [hb, if_false]
      left; rfl

theorem foldl_expireOne_cases (now : Int) (L : List Resource) :
    ∀ (cur : List Resource) (i : Nat),
      findRes (L.foldl (expireOne now) cur) i = findRes cur i ∨
      ∃ old, findRes cur i = some old ∧ old.lock_token ≠ "" ∧
        expiresLe old now = true ∧
        findRes (L.foldl (expireOne now) cur) i =
          some (autoExpired old now) := by
  induction L with
  | nil => intro cur i; left; rfl
  | cons s L ih =>
    intro cur i
    rw [List.foldl_cons]
    rcases expireOne_cases now cur s i with h1 | ⟨old, h1, h2, h3, h4⟩
    · rcases ih (expireOne now cur s) i with h5 | ⟨old, h5, h6, h7, h8⟩
      · left; rw [h5, h1]
      · right
        exact ⟨old, h1 ▸ h5, h6, h7, h8⟩
    · rcases ih (expireOne now cur s) i with h5 | ⟨old2, h5, h6, h7, h8⟩
      · right
        exact ⟨old, h1, h2, h3, h5.trans h4⟩
      · rw [h4] at h5
        have h9 := Option.some.inj h5
        rw [← h9] at h6
        simp [autoExpired] at h6

theorem mem_setRes (cur : List Resource) (r y : Resource)
    (hy : y ∈ setRes cur r) : y ∈ cur ∨ y = r := by
  rcases List.mem_map.mp hy with ⟨z, hz, hzy⟩
  by_cases h : z.id = r.id
  · right; rw [← hzy]; simp [h]
  · left
    rw [← hzy]
    simpa [h] using hz

theorem tryUnlock_cases (cur : List Resource) (tok : String) :
    tryUnlockByToken cur tok = cur ∨
    ∃ m, cur.find? (fun r => r.lock_token = tok) = some m ∧
      tryUnlockByToken cur tok = setRes cur (clearRes m) := by
  rw [tryUnlockByToken, unlock_resource_by_token]
  cases h : cur.find? (fun r => r.lock_token = tok) with
  | none => left; rfl
  | some m => right; exact ⟨m, rfl, rfl⟩

theorem clearRes_clearRes (o : Resource) : clearRes (clearRes o) = clearRes o :=
  rfl

theorem onlyCleared_tryUnlock (rs cur : List Resource) (tok : String)
    (h : onlyCleared rs cur) : onlyCleared rs (tryUnlockByToken cur tok) := by
  rcases tryUnlock_cases cur tok with he | ⟨m, hm, he⟩
  · rw [he]; exact h
  · rw [he]
    intro y hy
    rcases mem_setRes _ _ _ hy with hy2 | hy2
    · exact h y hy2
    · have hmem := List.mem_of_find?_eq_some hm
      rcases h m hmem with hm2 | ⟨o, ho, hmo⟩
      · right; exact ⟨m, hm2, hy2⟩
      · right; exact ⟨o, ho, by rw [hy2, hmo, clearRes_clearRes]⟩

theorem entryClearedOr_isSome (x : Resource) (cur : List Resource)
    (h : entryClearedOr x cur) : (findRes cur x.id).isSome := by
  rcases h with h | ⟨c, hc, _⟩
  · rw [h]; rfl
  · rw [hc]; rfl

theorem entryClearedOr_tryUnlock (x : Resource) (cur : List Resource)
    (tok : String) (h : entryClearedOr x cur) :
    entryClearedOr x (tryUnlockByToken cur tok) := by
  rcases tryUnlock_cases cur tok with he | ⟨m, hm, he⟩
  · rw [he]; exact h
  · rw [he]
    by_cases hid : x.id = (clearRes m).id
    · right
      refine ⟨clearRes m, ?_, rfl⟩
      rw [hid]
      exact findRes_setRes_self cur (clearRes m)
        (by rw [← hid]; exact entryClearedOr_isSome x cur h)
    · rw [entryClearedOr, findRes_setRes_ne cur (clearRes m) x.id hid]
      exact h

theorem entryCleared_tryUnlock (x : Resource) (cur : List Resource)
    (tok : String) (h : entryCleared x cur) :
    entryCleared x (tryUnlockByToken cur tok) := by
  rcases tryUnlock_cases cur tok with he | ⟨m, hm, he⟩
  · rw [he]; exact h
  · rw [he]
    by_cases hid : x.id = (clearRes m).id
    · refine ⟨clearRes m, ?_, rfl⟩
      rw [hid]
      refine findRes_setRes_self cur (clearRes m) ?_
      rw [← hid]
      rcases h with ⟨c, hc, _⟩
      rw [hc]; rfl
    · rw [entryCleared, findRes_setRes_ne cur (clearRes m) x.id hid]
      exact h

theorem tryUnlock_fires (rs cur : List Resource) (x : Resource) (t : String)
    (hS : onlyCleared rs cur) (hA : entryClearedOr x cur)
    (hxt : x.lock_token = t) (htne : t ≠ "")
    (huniq : ∀ y ∈ rs, y.lock_token = t → y = x) :
    entryCleared x (tryUnlockByToken cur t) := by
  rcases hA with hA | hA
  · have hxmem : x ∈ cur := List.mem_of_find?_eq_some hA
    have hsome : (cur.find? (fun r => r.lock_token = t)).isSome :=
      List.find?_isSome.mpr ⟨x, hxmem, by simp [hxt]⟩
    rcases Option.isSome_iff_exists.mp hsome with ⟨m, hm⟩
    have hmt : m.lock_token = t := by
      have := List.find?_some hm
      simpa using this
    have hmx : m = x := by
      have hmem := List.mem_of_find?_eq_some hm
      rcases hS m hmem with h1 | ⟨o, ho, hmo⟩
      · exact huniq m h1 hmt
      · exfalso
        rw [hmo] at hmt
        exact htne (by rw [← hmt]; rfl)
    subst hmx
    rw [tryUnlockByToken, unlock_resource_by_token]
    simp only [hm]
    refine ⟨clearRes m, ?_, rfl⟩
    exact findRes_setRes_self cur (clearRes m) (by rw [show (clearRes m).id = m.id from rfl, hA]; rfl)
  · exact entryCleared_tryUnlock x cur t hA

theorem entryCleared_tokFold (x : Resource) (ts : List String) :
    ∀ cur, entryCleared x cur →
      entryCleared x (ts.foldl tryUnlockByToken cur) := by
  induction ts with
  | nil => intro cur h; exact h
  | cons a ts ih =>
    intro cur h
    rw [List.foldl_cons]
    exact ih _ (entryCleared_tryUnlock x cur a h)

theorem tokFold_fires (rs : List Resource) (x : Resource) (t : String)
    (hxt : x.lock_token = t) (htne : t ≠ "")
    (huniq : ∀ y ∈ rs, y.lock_token = t → y = x) (ts : List String) :
    ∀ cur, onlyCleared rs cur → entryClearedOr x cur → t ∈ ts →
      entryCleared x (ts.foldl tryUnlockByToken cur) := by
  induction ts with
  | nil => intro cur _ _ h; cases h
  | cons a ts ih =>
    intro cur hS hA hmem
    rw [List.foldl_cons]
    by_cases hat : a = t
    · subst hat
      exact entryCleared_tokFold x ts _
        (tryUnlock_fires rs cur x a hS hA hxt htne huniq)
    · rcases List.mem_cons.mp hmem with h | h
      · exact absurd h.symm hat
      · exact ih _ (onlyCleared_tryUnlock rs cur a hS)
          (entryClearedOr_tryUnlock x cur a hA) h

theorem onlyCleared_tokFold (rs : List Resource) (ts : List String) :
    ∀ cur, onlyCleared rs cur →
      onlyCleared rs (ts.foldl tryUnlockByToken cur) := by
  induction ts with
  | nil => intro cur h; exact h
  | cons a ts ih =>
    intro cur h
    rw [List.foldl_cons]
    exact ih _ (onlyCleared_tryUnlock rs cur a h)

theorem entryClearedOr_tokFold (x : Resource) (ts : List String) :
    ∀ cur, entryClearedOr x cur →
      entryClearedOr x (ts.foldl tryUnlockByToken cur) := by
  induction ts with
  | nil => intro cur h; exact h
  | cons a ts ih =>
    intro cur h
    rw [List.foldl_cons]
    exact ih _ (entryClearedOr_tryUnlock x cur a h)

theorem phaseBOne_fst (now : Int) (st : List Resource × List Reservation)
    (snap : Reservation) :
    (phaseBOne now st snap).1 =
      snap.lock_tokens.foldl tryUnlockByToken st.1 := by
  rw [phaseBOne]
  cases h : findResv st.2 snap.reservation_id with
  | none => rfl
  | some current =>
    dsimp only
    by_cases hc : (current.status = RStatus.fulfilled &&
        claimExpLe current now) = true
    · rw [if_pos hc]
    · rw [if_neg hc]

theorem findResv_cons (a : Reservation) (l : List Reservation) (i : String) :
    findResv (a :: l) i =
      if a.reservation_id = i then some a else findResv l i := by
  by_cases h : a.reservation_id = i <;> simp [findResv, List.find?_cons, h]

theorem findResv_none_filter (l : List Reservation) (p : Reservation → Bool)
    (rid : String) (h : findResv l rid = none) :
    findResv (l.filter p) rid = none := by
  rw [findResv, List.find?_eq_none] at h ⊢
  intro y hy
  exact h y (List.mem_of_mem_filter hy)

theorem findResv_filter_ne (l : List Reservation) (rid sid : String)
    (hne : rid ≠ sid) :
    findResv (l.filter (fun y => y.reservation_id ≠ sid)) rid =
      findResv l rid := by
  induction l with
  | nil => rfl
  | cons a l ih =>
    rw [List.filter_cons]
    by_cases ha : a.reservation_id = sid
    · have hp : ¬ (decide (a.reservation_id ≠ sid) = true) := by simp [ha]
      rw [if_neg hp, findResv_cons, ih]
      have : ¬ a.reservation_id = rid := by
        rw [ha]; exact fun hc => hne hc.symm
      rw [if_neg this]
    · have hp : decide (a.reservation_id ≠ sid) = true := by simp [ha]
      rw [if_pos hp, findResv_cons, findResv_cons, ih]

theorem phaseBOne_resv_none (now : Int)
    (st : List Resource × List Reservation) (snap : Reservation)
    (rid : String) (h : findResv st.2 rid = none) :
    findResv (phaseBOne now st snap).2 rid = none := by
  rw [phaseBOne]
  cases hf : findResv st.2 snap.reservation_id with
  | none => exact h
  | some current =>
    dsimp only
    by_cases hc : (current.status = RStatus.fulfilled &&
        claimExpLe current now) = true
    · rw [if_pos hc]
      exact findResv_none_filter _ _ _ h
    · rw [if_neg hc]
      exact h

theorem phaseBOne_resv_hit (now : Int)
    (st : List Resource × List Reservation) (snap : Reservation)
    (cur0 : Reservation)
    (h : findResv st.2 snap.reservation_id = some cur0)
    (hc : cur0.status = .fulfilled) (he : claimExpLe cur0 now = true) :
    findResv (phaseBOne now st snap).2 snap.reservation_id = none := by
  rw [phaseBOne]
  simp only [h]
  have hcond : (cur0.status = RStatus.fulfilled &&
      claimExpLe cur0 now) = true := by simp [hc, he]
  simp only [hcond, if_true]
  rw [findResv, List.find?_eq_none]
  intro y hy
  have := (List.mem_filter.mp hy).2
  simpa using this

theorem phaseBOne_resv_ne (now : Int)
    (st : List Resource × List Reservation) (snap : Reservation)
    (rid : String) (hne : rid ≠ snap.reservation_id) :
    findResv (phaseBOne now st snap).2 rid = findResv st.2 rid := by
  rw [phaseBOne]
  cases hf : findResv st.2 snap.reservation_id with
  | none => rfl
  | some current =>
    dsimp only
    by_cases hc : (current.status = RStatus.fulfilled &&
        claimExpLe current now) = true
    · rw [if_pos hc]
      exact findResv_filter_ne _ _ _ hne
    · rw [if_neg hc]

theorem phaseBFold_resv_none (now : Int) (rid : String)
    (E : List Reservation) :
    ∀ st, findResv st.2 rid = none →
      findResv ((E.foldl (phaseBOne now) st)).2 rid = none := by
  induction E with
  | nil => intro st h; exact h
  | cons a E ih =>
    intro st h
    rw [List.foldl_cons]
    exact ih _ (phaseBOne_resv_none now st a rid h)

theorem phaseBFold_deletes (now : Int) (rid : String) (r : Reservation)
    (hst : r.status = .fulfilled) (hexp : claimExpLe r now = true)
    (E : List Reservation) :
    ∀ st, findResv st.2 rid = some r → (∃ a ∈ E, a.reservation_id = rid) →
      findResv ((E.foldl (phaseBOne now) st)).2 rid = none := by
  induction E with
  | nil =>
    intro st _ h
    rcases h with ⟨a, ha, _⟩
    cases ha
  | cons a E ih =>
    intro st hval hmem
    rw [List.foldl_cons]
    by_cases ha : a.reservation_id = rid
    · have h1 : findResv st.2 a.reservation_id = some r := by
        rw [ha]; exact hval
      have h2 := phaseBOne_resv_hit now st a r h1 hst hexp
      have h3 : findResv (phaseBOne now st a).2 rid = none := by
        rw [← ha]; exact h2
      exact phaseBFold_resv_none now rid E _ h3
    · have h1 : findResv (phaseBOne now st a).2 rid = some r := by
        rw [phaseBOne_resv_ne now st a rid (fun hc => ha hc.symm)]
        exact hval
      rcases hmem with ⟨b, hb, hbid⟩
      rcases List.mem_cons.mp hb with hba | hbE
      · exact absurd (hba ▸ hbid) ha
      · exact ih _ h1 ⟨b, hbE, hbid⟩

theorem entryCleared_phaseBFold (x : Resource) (now : Int)
    (E : List Reservation) :
    ∀ st, entryCleared x st.1 →
      entryCleared x ((E.foldl (phaseBOne now) st)).1 := by
  induction E with
  | nil => intro st h; exact h
  | cons a E ih =>
    intro st h
    rw [List.foldl_cons]
    refine ih _ ?_
    rw [phaseBOne_fst]
    exact entryCleared_tokFold x a.lock_tokens st.1 h

theorem phaseBFold_fires (rs : List Resource) (x : Resource) (t : String)
    (now : Int) (hxt : x.lock_token = t) (htne : t ≠ "")
    (huniq : ∀ y ∈ rs, y.lock_token = t → y = x) (r : Reservation)
    (htok : t ∈ r.lock_tokens) (E : List Reservation) :
    ∀ st, onlyCleared rs st.1 → entryClearedOr x st.1 → r ∈ E →
      entryCleared x ((E.foldl (phaseBOne now) st)).1 := by
  induction E with
  | nil => intro st _ _ h; cases h
  | cons a E ih =>
    intro st hS hA hmem
    rw [List.foldl_cons]
    by_cases har : a = r
    · subst har
      refine entryCleared_phaseBFold x now E _ ?_
      rw [phaseBOne_fst]
      exact tokFold_fires rs x t hxt htne huniq a.lock_tokens st.1 hS hA htok
    · rcases List.mem_cons.mp hmem with h | h
      · exact absurd h.symm har
      · refine ih _ ?_ ?_ h
        · rw [phaseBOne_fst]
          exact onlyCleared_tokFold rs a.lock_tokens st.1 hS
        · rw [phaseBOne_fst]
          exact entryClearedOr_tokFold x a.lock_tokens st.1 hA

theorem setResv_cons (a : Reservation) (l : List Reservation)
    (r : Reservation) :
    setResv (a :: l) r =
      (if a.reservation_id = r.reservation_id then r else a) :: setResv l r :=
  rfl

theorem findResv_setResv_ne (l : List Reservation) (r : Reservation)
    (i : String) (h : i ≠ r.reservation_id) :
    findResv (setResv l r) i = findResv l i := by
  induction l with
  | nil => rfl
  | cons a l ih =>
    rw [setResv_cons, findResv_cons, findResv_cons]
    by_cases ha : a.reservation_id = r.reservation_id
    · have : ¬ r.reservation_id = i := fun hc => h hc.symm
      simp [ha, this, ih]
    · by_cases hai : a.reservation_id = i <;> simp [ha, hai, h, ih]

theorem findResv_setResv_self (l : List Reservation) (r : Reservation)
    (h : (findResv l r.reservation_id).isSome) :
    findResv (setResv l r) r.reservation_id = some r := by
  induction l with
  | nil => simp [findResv] at h
  | cons a l ih =>
    rw [setResv_cons, findResv_cons]
    rw [findResv_cons] at h
    by_cases ha : a.reservation_id = r.reservation_id
    · simp [ha]
    · simp only [ha, if_false] at h ⊢
      exact ih h

theorem phaseCOne_resv_cases (now : Int) (toks : Nat → String)
    (st : List Resource × List Reservation × Nat) (snap : Reservation)
    (i : String) :
    findResv (phaseCOne now toks st snap).2.1 i = findResv st.2.1 i ∨
    ∃ old locked, findResv st.2.1 i = some old ∧
      old.status = .pending ∧
      findResv (phaseCOne now toks st snap).2.1 i =
        some (fulfilledWith old now locked) := by
  rw [phaseCOne]
  cases h1 : lock_resources_by_tags st.1 snap.tags snap.quantity snap.ttl
      now toks st.2.2 with
  | error e => left; rfl
  | ok res =>
    obtain ⟨locked, rs2, c2⟩ := res
    dsimp only
    cases h2 : findResv st.2.1 snap.reservation_id with
    | none => left; rfl
    | some current =>
      dsimp only
      by_cases h3 : current.status = RStatus.pending
      · rw [if_pos h3]
        have hid : current.reservation_id = snap.reservation_id := by
          have := List.find?_some h2
          simpa using this
        by_cases hi : i = current.reservation_id
        · right
          refine ⟨current, locked, ?_, h3, ?_⟩
          · rw [hi, hid]; exact h2
          · show findResv (setResv st.2.1 (fulfilledWith current now locked))
                i = some (fulfilledWith current now locked)
            have hfid : (fulfilledWith current now locked).reservation_id =
                current.reservation_id := rfl
            rw [hi]
            rw [← hfid]
            refine findResv_setResv_self _ _ ?_
            rw [hfid, hid, h2]
            rfl
        · left
          show findResv (setResv st.2.1 (fulfilledWith current now locked))
              i = findResv st.2.1 i
          exact findResv_setResv_ne _ _ _ hi
      · rw [if_neg h3]
        left; rfl

theorem foldl_phaseCOne_cases (now : Int) (toks : Nat → String)
    (L : List Reservation) :
    ∀ (st : List Resource × List Reservation × Nat) (i : String),
      findResv ((L.foldl (phaseCOne now toks) st)).2.1 i =
        findResv st.2.1 i ∨
      ∃ old locked, findResv st.2.1 i = some old ∧
        old.status = .pending ∧
        findResv ((L.foldl (phaseCOne now toks) st)).2.1 i =
          some (fulfilledWith old now locked) := by
  induction L with
  | nil => intro st i; left; rfl
  | cons s L ih =>
    intro st i
    rw [List.foldl_cons]
    rcases phaseCOne_resv_cases now toks st s i with h1 |
      ⟨old, locked, h1, h2, h3⟩
    · rcases ih (phaseCOne now toks st s) i with h4 |
        ⟨old, locked, h4, h5, h6⟩
      · left; rw [h4, h1]
      · right
        exact ⟨old, locked, h1 ▸ h4, h5, h6⟩
    · rcases ih (phaseCOne now toks st s) i with h4 |
        ⟨old2, locked2, h4, h5, h6⟩
      · right
        exact ⟨old, locked, h1, h2, h4.trans h3⟩
      · rw [h3] at h4
        have h7 := Option.some.inj h4
        rw [← h7] at h5
        cases h5

/-!
## Theorems
-/

/-- **C1** — the code violates the claim (and the repository's own tests
`test_create_reservation_ttl_exceeds_max_lock_duration` and
`test_create_reservation_ttl_partial_compatibility`): with a catalog whose
only tag-matching resource has `max_lock_duration = 3600`, creating a
reservation with `ttl = 7200` must fail `InvalidTTL` per the claim (zero
resources are both tag- and ttl-compatible), but `create_reservation`
performs no TTL-compatibility check at all and accepts a pending
reservation. -/
theorem create_reservation_skips_ttl_validation :
    tagsMatch ["gpu"] gpuDevice = true ∧
    gpuDevice.max_lock_duration < 7200 ∧
    create_reservation [gpuDevice] [] ["gpu"] 1 3600 7200 0 "res_x" =
      .ok ({ reservation_id := "res_x", tags := ["gpu"], quantity := 1,
             ttl := 7200, status := .pending, created_at := 0,
             expires_at := 3600 },
           [{ reservation_id := "res_x", tags := ["gpu"], quantity := 1,
              ttl := 7200, status := .pending, created_at := 0,
              expires_at := 3600 }]) :=
  ⟨by decide, by decide, by rfl⟩

/-- **C2** (counterexample) — the claim that each of the four lock-manager
operations performs its read-check-update sequence while holding the
resource mutex is false: the body of `unlock_resource`
(controllers.py:147-186) contains no `async with resource_lock:` block,
so its read-check-update steps run at mutex depth zero. -/
theorem unlock_resource_not_under_mutex :
    ¬ (underMutex lockResourceSteps = true ∧
       underMutex unlockResourceSteps = true ∧
       underMutex extendResourceLockSteps = true ∧
       underMutex unlockResourceByTokenSteps = true) := by decide

/-- **C2** (amended) — `lock_resource`, `extend_resource_lock` and
`unlock_resource_by_token` perform their whole read-check-update sequence
while holding the resource mutex; `unlock_resource` does not acquire the
resource mutex at all, but its body also contains no suspension point, so
under cooperative (asyncio) scheduling it still executes without
interleaving. -/
theorem lock_manager_mutex_discipline :
    underMutex lockResourceSteps = true ∧
    underMutex extendResourceLockSteps = true ∧
    underMutex unlockResourceByTokenSteps = true ∧
    underMutex unlockResourceSteps = false ∧
    hasSuspension unlockResourceSteps = false := by decide

/-- **C4** — `extend_resource_lock` on a present resource: fails
`AlreadyUnlocked` on an unlocked resource and `InvalidLockToken` on a
token mismatch (and `NotFound` on an absent id); on a locked resource
with matching token it fails `InvalidTTL` exactly when the refreshed
expiry `now + additional_ttl` minus `lock_acquired_at` exceeds
`max_lock_duration` (leaving the resource unchanged, the error being
raised before any write), and otherwise sets `lock_expires_at` to
`now + additional_ttl` absolutely — independent of the prior
`lock_expires_at`, so the lock can shrink — touching no other field. -/
theorem extend_resource_lock_spec (rs : List Resource) (i : Nat)
    (tok : String) (addTtl now : Int) :
    (findRes rs i = none →
      extend_resource_lock rs i tok addTtl now = .error .resourceNotFound) ∧
    (∀ r, findRes rs i = some r →
      (r.lock_token = "" →
        extend_resource_lock rs i tok addTtl now =
          .error .resourceAlreadyUnlocked) ∧
      (r.lock_token ≠ "" → tok ≠ r.lock_token →
        extend_resource_lock rs i tok addTtl now = .error .invalidLockToken) ∧
      (∀ a, r.lock_acquired_at = some a → r.lock_token ≠ "" →
        tok = r.lock_token →
        ((extend_resource_lock rs i tok addTtl now = .error .invalidTTL ↔
            r.max_lock_duration < now + addTtl - a) ∧
         (now + addTtl - a ≤ r.max_lock_duration →
           extend_resource_lock rs i tok addTtl now =
             .ok ({ r with lock_expires_at := some (now + addTtl) },
                  setRes rs { r with lock_expires_at := some (now + addTtl) }))))) := by
  refine ⟨fun hn => by simp [extend_resource_lock, hn], fun r hr => ?_⟩
  refine ⟨fun h0 => by simp [extend_resource_lock, hr, h0],
          fun h0 htok => by simp [extend_resource_lock, hr, h0, htok], ?_⟩
  intro a ha h0 htok
  constructor
  · constructor
    · intro h
      by_contra hle
      simp [extend_resource_lock, hr, h0, htok, ha] at h
      omega
    · intro h
      have : ¬ (now + addTtl - a ≤ r.max_lock_duration) := by omega
      simp [extend_resource_lock, hr, h0, htok, ha]
      omega
  · intro hle
    simp [extend_resource_lock, hr, h0, htok, ha]
    omega

/-- **C4** (witness) — spec scenario 4 at the concrete catalog
`[lockedDevice]` (`max_lock_duration = 7200`, acquired at 0, token `T`):
extending at `now = 3600` with `additional_ttl = 10000` is exactly an
`InvalidTTL`, and with `additional_ttl = 3000` succeeds, refreshing the
expiry to `3600 + 3000` (shorter than an additive extension would be). -/
theorem extend_resource_lock_spec_witness :
    (extend_resource_lock [lockedDevice] 1 "T" 10000 3600 =
        .error .invalidTTL ↔
      lockedDevice.max_lock_duration < 3600 + 10000 - 0) ∧
    extend_resource_lock [lockedDevice] 1 "T" 3000 3600 =
      .ok ({ lockedDevice with lock_expires_at := some (3600 + 3000) },
           setRes [lockedDevice]
             { lockedDevice with lock_expires_at := some (3600 + 3000) }) :=
  ⟨(((extend_resource_lock_spec [lockedDevice] 1 "T" 10000 3600).2
      lockedDevice rfl).2.2 0 rfl (by decide) rfl).1,
   (((extend_resource_lock_spec [lockedDevice] 1 "T" 3000 3600).2
      lockedDevice rfl).2.2 0 rfl (by decide) rfl).2 (by decide)⟩

/-- **C5** — `unlock_resource`: fails `NotFound` on an absent id,
`AlreadyUnlocked` on a resource carrying no token (an error, not a
no-op), `InvalidLockToken` whenever the supplied token differs from the
current `lock_token` (token equality being the only condition separating
failure from success), and on success clears all four lock fields:
`lock_token` becomes `""`, both timestamps become `none`, and
`lock_details` becomes `"Resource available"`. -/
theorem unlock_resource_spec (rs : List Resource) (i : Nat)
    (tok : Option String) :
    (findRes rs i = none →
      unlock_resource rs i tok = .error .resourceNotFound) ∧
    (∀ r, findRes rs i = some r →
      (r.lock_token = "" →
        unlock_resource rs i tok = .error .resourceAlreadyUnlocked) ∧
      (r.lock_token ≠ "" → tok ≠ some r.lock_token →
        unlock_resource rs i tok = .error .invalidLockToken) ∧
      (r.lock_token ≠ "" → tok = some r.lock_token →
        unlock_resource rs i tok =
          .ok (setRes rs
            { r with lock_token := "", lock_details := "Resource available",
                     lock_acquired_at := none, lock_expires_at := none }))) := by
  refine ⟨fun hn => by simp [unlock_resource, hn], fun r hr => ?_⟩
  exact ⟨fun h0 => by simp [unlock_resource, hr, h0],
         fun h0 htok => by simp [unlock_resource, hr, h0, htok],
         fun h0 htok => by simp [unlock_resource, hr, h0, htok]⟩

/-- **C5** (witness) — on the concrete catalog `[lockedDevice]`:
unlocking with the matching token `T` succeeds and clears all four lock
fields, and (idempotence direction) unlocking the resulting unlocked
resource fails `AlreadyUnlocked`. -/
theorem unlock_resource_spec_witness :
    unlock_resource [lockedDevice] 1 (some "T") =
      .ok (setRes [lockedDevice] unlockedDevice) ∧
    unlock_resource [unlockedDevice] 1 (some "T") =
      .error .resourceAlreadyUnlocked :=
  ⟨((unlock_resource_spec [lockedDevice] 1 (some "T")).2 lockedDevice
      rfl).2.2 (by decide) rfl,
   ((unlock_resource_spec [unlockedDevice] 1 (some "T")).2 _ rfl).1 rfl⟩

/-- **C6** — `claim_reservation`: fails `ReservationNotFound` when the id
is absent, `ReservationNotFulfilled` when the reservation is pending,
`ReservationNotFound` again when it is already claimed,
`ReservationClaimExpired` when it is fulfilled with `claim_expires_at ≤
now`; and when fulfilled with the claim window still open it transitions
the record to `claimed` with `claimed_at = now`, the record update
touching nothing else — in particular `resource_ids` and `lock_tokens`
are retained unchanged. -/
theorem claim_reservation_spec (rvs : List Reservation) (rid : String)
    (now : Int) :
    (findResv rvs rid = none →
      claim_reservation rvs rid now = .error .reservationNotFound) ∧
    (∀ r, findResv rvs rid = some r →
      (r.status = .pending →
        claim_reservation rvs rid now = .error .reservationNotFulfilled) ∧
      (r.status = .claimed →
        claim_reservation rvs rid now = .error .reservationNotFound) ∧
      (∀ t, r.status = .fulfilled → r.claim_expires_at = some t →
        ((t ≤ now →
           claim_reservation rvs rid now = .error .reservationClaimExpired) ∧
         (now < t →
           claim_reservation rvs rid now =
             .ok ({ r with status := .claimed, claimed_at := some now },
                  setResv rvs
                    { r with status := .claimed, claimed_at := some now }) ∧
           ({ r with status := RStatus.claimed,
                     claimed_at := some now }).resource_ids =
             r.resource_ids ∧
           ({ r with status := RStatus.claimed,
                     claimed_at := some now }).lock_tokens =
             r.lock_tokens)))) := by
  refine ⟨fun hn => by simp [claim_reservation, hn], fun r hr => ?_⟩
  refine ⟨fun hp => by simp [claim_reservation, hr, hp], ?_, ?_⟩
  · intro hc
    simp [claim_reservation, hr, hc]
  · intro t hf ht
    constructor
    · intro hle
      simp [claim_reservation, hr, hf, claimExpLe, ht, hle]
    · intro hlt
      have hle : ¬ (t ≤ now) := by omega
      simp [claim_reservation, hr, hf, claimExpLe, ht, hle]

/-- **C6** (witness) — on the concrete map `[fulfilledResv]` (fulfilled,
claim window closing at 50): claiming at `now = 60` is exactly
`ReservationClaimExpired`, and claiming at `now = 30` succeeds with
`claimed_at = 30` and the fulfillment payload retained. -/
theorem claim_reservation_spec_witness :
    claim_reservation [fulfilledResv] "res_a" 60 =
      .error .reservationClaimExpired ∧
    claim_reservation [fulfilledResv] "res_a" 30 =
      .ok ({ fulfilledResv with status := .claimed, claimed_at := some 30 },
           setResv [fulfilledResv]
             { fulfilledResv with status := .claimed,
                                  claimed_at := some 30 }) :=
  ⟨(((claim_reservation_spec [fulfilledResv] "res_a" 60).2 fulfilledResv
      rfl).2.2 50 rfl rfl).1 (by decide),
   ((((claim_reservation_spec [fulfilledResv] "res_a" 30).2 fulfilledResv
      rfl).2.2 50 rfl rfl).2 (by decide)).1⟩

/-- **C7** (counterexample) — the claimed equivalence "T matches R iff
T ⊆ parsed_tags(R)" fails at the empty required tag set and a resource
with an empty tag string: the subset condition holds vacuously, yet the
matcher (which skips resources with a falsy tag string before any subset
test) rejects the resource, and the lookup over the one-element catalog
raises `ResourceNotFound` instead of returning it. -/
theorem tag_matcher_empty_tagset_counterexample :
    (∀ t ∈ ([] : List String), t ∈ parsedTags untaggedDevice.tags) ∧
    tagsMatch [] untaggedDevice = false ∧
    get_resources_from_tags [untaggedDevice] [] =
      .error .resourceNotFound :=
  ⟨by simp, by decide, by rfl⟩

/-- **C7** (amended) — the tag matcher is a pure function over the
current resource set: required tag set `T` matches resource `R` iff `R`'s
tag string is non-empty and `T ⊆ parsed_tags(R)`, where parsing splits on
commas, trims whitespace and drops empty components (so a resource with
an empty tag string matches no `T`, and for non-empty `T` the original
"T ⊆ parsed_tags(R)" reading is unchanged); the lookup fails
`ResourceNotFound` exactly when no resource matches, and otherwise
returns precisely the matching resources, in ascending id order whenever
the store is in ascending id order. -/
theorem tag_matcher_spec (T : List String) (rs : List Resource)
    (hs : rs.Pairwise (fun a b => a.id < b.id)) :
    (∀ r : Resource, tagsMatch T r = true ↔
        (r.tags ≠ "" ∧ ∀ t ∈ T, t ∈ parsedTags r.tags)) ∧
    (get_resources_from_tags rs T = .error .resourceNotFound ↔
        ∀ r ∈ rs, tagsMatch T r = false) ∧
    (∀ out, get_resources_from_tags rs T = .ok out →
        (∀ r, r ∈ out ↔ r ∈ rs ∧ tagsMatch T r = true) ∧
        out.Pairwise (fun a b => a.id < b.id)) := by
  refine ⟨?_, ?_, ?_⟩
  · intro r
    simp [tagsMatch, List.all_eq_true]
  · rw [get_resources_from_tags]
    constructor
    · intro h
      by_cases he : (rs.filter (tagsMatch T)).isEmpty
      · intro r hr
        have : rs.filter (tagsMatch T) = [] := List.isEmpty_iff.mp he
        have := List.filter_eq_nil_iff.mp this r hr
        simpa using this
      · simp [he] at h
    · intro h
      have : rs.filter (tagsMatch T) = [] :=
        List.filter_eq_nil_iff.mpr (by intro a ha; simp [h a ha])
      simp [this]
  · intro out hout
    rw [get_resources_from_tags] at hout
    by_cases he : (rs.filter (tagsMatch T)).isEmpty
    · simp [he] at hout
    · simp only [he, if_neg, Bool.false_eq_true, not_false_iff,
        if_false] at hout
      have hout2 : out = rs.filter (tagsMatch T) := by
        cases hout
        rfl
      subst hout2
      exact ⟨fun r => by simp [List.mem_filter], hs.filter _⟩

/-- **C7** (witness) — spec scenario 3's catalog (`arduino-1` tagged
`arduino,leds`, `arduino-2` tagged `arduino,motors`), which is in
ascending id order: required set `["arduino", "leds"]` matches
`arduino-1` per the amended equivalence, and the lookup returns exactly
`[arduino-1]`. -/
theorem tag_matcher_spec_witness :
    ([arduino1, arduino2].Pairwise (fun a b => a.id < b.id)) ∧
    (tagsMatch ["arduino", "leds"] arduino1 = true ↔
      (arduino1.tags ≠ "" ∧
        ∀ t ∈ ["arduino", "leds"], t ∈ parsedTags arduino1.tags)) ∧
    (∀ r, r ∈ [arduino1] ↔
      r ∈ [arduino1, arduino2] ∧
        tagsMatch ["arduino", "leds"] r = true) :=
  ⟨by decide,
   (tag_matcher_spec ["arduino", "leds"] [arduino1, arduino2]
      (by decide)).1 arduino1,
   ((tag_matcher_spec ["arduino", "leds"] [arduino1, arduino2]
      (by decide)).2.2 [arduino1] (by rfl)).1⟩

/-- **C3** — `lock_resources_by_tags` is all-or-nothing.  With the store
in ascending id order and the token supply injective on the drawn range:
it fails `InsufficientResources` exactly when fewer than `quantity`
unlocked tag-matching resources exist; it fails `InvalidTTL` exactly when
enough are available but `ttl` exceeds the `max_lock_duration` of one of
the first `quantity` candidates (both failures occur before any write, so
the map is returned untouched — an `.error` carries no state); and on
success it locks exactly the first `quantity` candidates in id order,
every one stamped with the same acquisition time `now` and expiry
`now + ttl` but each with its own distinct fresh token, all other
resources being left unchanged. -/
theorem lock_resources_by_tags_spec (rs : List Resource)
    (tags : List String) (q : Nat) (ttl now : Int) (toks : Nat → String)
    (c : Nat) (hs : rs.Pairwise (fun a b => a.id < b.id))
    (hd : ∀ i j, i < q → j < q → i ≠ j → toks (c + i) ≠ toks (c + j)) :
    (lock_resources_by_tags rs tags q ttl now toks c =
        .error .insufficientResources ↔
      (availFilter rs tags).length < q) ∧
    (lock_resources_by_tags rs tags q ttl now toks c =
        .error .invalidTTL ↔
      (q ≤ (availFilter rs tags).length ∧
       ∃ r ∈ (availFilter rs tags).take q, r.max_lock_duration < ttl)) ∧
    (∀ locked rs2 c2,
      lock_resources_by_tags rs tags q ttl now toks c =
          .ok (locked, rs2, c2) →
        locked.length = q ∧
        c2 = c + q ∧
        (∀ k r0 rL, ((availFilter rs tags).take q).get? k = some r0 →
          locked.get? k = some rL →
          rL = { r0 with
                 lock_token := toks (c + k)
                 lock_details := "Resource locked (reservation)"
                 lock_acquired_at := some now
                 lock_expires_at := some (now + ttl) }) ∧
        locked.map (fun r => r.id) =
          ((availFilter rs tags).take q).map (fun r => r.id) ∧
        (locked.map (fun r => r.lock_token)).Pairwise (fun a b => a ≠ b) ∧
        (locked.map (fun r => r.id)).Pairwise (fun a b => a < b) ∧
        (∀ i, (∀ l ∈ locked, l.id ≠ i) → findRes rs2 i = findRes rs i) ∧
        (∀ l ∈ locked, findRes rs2 l.id = some l)) := by
  by_cases h1 : (availFilter rs tags).length < q
  · refine ⟨by simp [lock_resources_by_tags, h1], ?_, ?_⟩
    · simp only [lock_resources_by_tags, h1, if_true]
      constructor
      · intro h; cases h
      · intro h; omega
    · intro locked rs2 c2 h
      simp [lock_resources_by_tags, h1] at h
  · by_cases h2 : ((availFilter rs tags).take q).any
        (fun r => ttl > r.max_lock_duration)
    · refine ⟨?_, ?_, ?_⟩
      · simp only [lock_resources_by_tags, h1, if_false, h2, if_true]
        constructor
        · intro h; cases h
        · intro h; cases h
      · simp only [lock_resources_by_tags, h1, if_false, h2, if_true]
        constructor
        · intro _
          refine ⟨by omega, ?_⟩
          rcases List.any_eq_true.mp h2 with ⟨r, hr, hp⟩
          exact ⟨r, hr, by simpa using hp⟩
        · intro _; trivial
      · intro locked rs2 c2 h
        simp [lock_resources_by_tags, h1, h2] at h
    · have hok : lock_resources_by_tags rs tags q ttl now toks c =
          .ok (lockTagged toks now ttl c ((availFilter rs tags).take q),
               (lockTagged toks now ttl c
                 ((availFilter rs tags).take q)).foldl setRes rs,
               c + (lockTagged toks now ttl c
                 ((availFilter rs tags).take q)).length) := by
        simp [lock_resources_by_tags, h1, h2]
      have hlenTake : ((availFilter rs tags).take q).length = q := by
        rw [List.length_take]
        omega
      have hlenLocked :
          (lockTagged toks now ttl c ((availFilter rs tags).take q)).length
            = q := by
        rw [lockTagged_length, hlenTake]
      refine ⟨?_, ?_, ?_⟩
      · rw [hok]
        constructor
        · intro h; cases h
        · intro h; omega
      · rw [hok]
        constructor
        · intro h; cases h
        · intro h
          rcases h with ⟨_, r, hr, hmax⟩
          have : ((availFilter rs tags).take q).any
              (fun r => ttl > r.max_lock_duration) = true :=
            List.any_eq_true.mpr ⟨r, hr, by simpa using hmax⟩
          exact absurd this (by simpa using h2)
      · intro locked rs2 c2 h
        rw [hok] at h
        injection h with h
        injection h with hlocked h
        injection h with hrs2 hc2
        subst hlocked
        subst hrs2
        subst hc2
        have hsortA : (availFilter rs tags).Pairwise
            (fun a b => a.id < b.id) := hs.filter _
        have hsortT : ((availFilter rs tags).take q).Pairwise
            (fun a b => a.id < b.id) :=
          List.Pairwise.sublist (List.take_sublist q _) hsortA
        have hmapid := lockTagged_map_id toks now ttl
          ((availFilter rs tags).take q) c
        have hidsorted :
            ((lockTagged toks now ttl c
              ((availFilter rs tags).take q)).map (fun r => r.id)).Pairwise
              (fun a b => a < b) := by
          rw [hmapid]
          exact List.pairwise_map.mpr hsortT
        have hnodup :
            ((lockTagged toks now ttl c
              ((availFilter rs tags).take q)).map (fun r => r.id)).Nodup :=
          hidsorted.imp (fun h => Nat.ne_of_lt h)
        refine ⟨hlenLocked, by rw [hlenLocked], ?_, hmapid, ?_, hidsorted,
          ?_, ?_⟩
        · intro k r0 rL h0 hL
          rw [lockTagged_getq, h0, Option.map_some'] at hL
          exact (Option.some.inj hL).symm
        · rw [List.pairwise_iff_get]
          intro i j hij
          have hi : i.1 < q := by
            have := i.2
            simpa [hlenLocked] using this
          have hj : j.1 < q := by
            have := j.2
            simpa [hlenLocked] using this
          have hi2 : i.1 < (lockTagged toks now ttl c
              ((availFilter rs tags).take q)).length := by
            rw [hlenLocked]; exact hi
          have hj2 : j.1 < (lockTagged toks now ttl c
              ((availFilter rs tags).take q)).length := by
            rw [hlenLocked]; exact hj
          rw [List.get_eq_getElem, List.get_eq_getElem,
            List.getElem_map, List.getElem_map,
            lockTagged_token_getElem _ _ _ _ _ _ hi2,
            lockTagged_token_getElem _ _ _ _ _ _ hj2]
          exact hd i.1 j.1 hi hj (by omega)
        · intro i hne
          exact foldl_setRes_of_forall_ne _ _ _ hne
        · intro l hl
          rcases List.mem_iff_get?.mp hl with ⟨k, hk⟩
          have h0 : ∃ r0, ((availFilter rs tags).take q).get? k = some r0 := by
            rcases hx : ((availFilter rs tags).take q).get? k with _ | r0
            · rw [lockTagged_getq, hx] at hk
              cases hk
            · exact ⟨r0, rfl⟩
          rcases h0 with ⟨r0, hr0⟩
          have hlid : l.id = r0.id := by
            simp only [lockTagged_getq, hr0, Option.map_some'] at hk
            have hfl := Option.some.inj hk
            rw [← hfl]
          have hr0mem : r0 ∈ rs := by
            have h1 : r0 ∈ (availFilter rs tags).take q :=
              List.get?_mem hr0
            have h2 : r0 ∈ availFilter rs tags :=
              List.mem_of_mem_take h1
            exact (List.mem_filter.mp h2).1
          refine foldl_setRes_of_mem _ _ _ hl hnodup ?_
          rw [hlid]
          exact findRes_isSome_of_mem rs r0 hr0mem

/-- **C3** (witness) — on the concrete sorted catalog
`[arduino1, arduino2]` with required tag `arduino`, `quantity = 1`,
`ttl = 60` at time 0: the batch lock succeeds, locking exactly
`arduino1Locked`, and the updated map carries that record under its id. -/
theorem lock_resources_by_tags_spec_witness :
    ([arduino1, arduino2].Pairwise (fun a b => a.id < b.id)) ∧
    ([arduino1Locked].length = 1 ∧
     ∀ l ∈ [arduino1Locked],
       findRes [arduino1Locked, arduino2] l.id = some l) := by
  have h := lock_resources_by_tags_spec [arduino1, arduino2] ["arduino"] 1
    60 0 (fun _ => "T0") 0 (by decide)
    (by intro i j hi hj hne; omega)
  have h2 := h.2.2 [arduino1Locked] [arduino1Locked, arduino2] 1 (by rfl)
  exact ⟨by decide, h2.1, h2.2.2.2.2.2.2.2⟩

/-- **C9** — one tick of the expiration reaper, run against an arbitrary
current map `cur` (which may differ arbitrarily from the `snapshot` taken
at the start of the tick, modelling user unlocks/extensions in between):
a resource record is changed only if, at the re-check against the current
record, it still carries a non-empty `lock_token` and has
`lock_expires_at ≤ now` for the tick's sampled `now` — any record that is
unlocked or has `lock_expires_at > now` at the re-check (e.g. unlocked or
extended by a user since the snapshot) is left exactly as it is — and any
record the tick does change becomes the auto-expired clear, with an empty
token and `lock_details = "Auto-expired at <now>"`. -/
theorem auto_expire_tick_spec (snapshot cur : List Resource) (now : Int)
    (i : Nat) :
    (∀ old, findRes cur i = some old →
      (old.lock_token = "" ∨ expiresLe old now = false) →
      findRes (reapTick snapshot cur now) i = findRes cur i) ∧
    (findRes cur i = none → findRes (reapTick snapshot cur now) i = none) ∧
    (∀ r2, findRes (reapTick snapshot cur now) i = some r2 →
      findRes cur i = some r2 ∨
      ∃ old, findRes cur i = some old ∧ old.lock_token ≠ "" ∧
        expiresLe old now = true ∧ r2 = autoExpired old now ∧
        r2.lock_token = "" ∧
        r2.lock_details = "Auto-expired at " ++ toString now) := by
  have hfold := foldl_expireOne_cases now
    (snapshot.filter (fun r => r.lock_token ≠ "" && expiresLe r now)) cur i
  refine ⟨?_, ?_, ?_⟩
  · intro old hold hcase
    rcases hfold with h | ⟨old2, h1, h2, h3, h4⟩
    · exact h
    · rw [hold] at h1
      have := Option.some.inj h1
      rw [← this] at h2 h3
      rcases hcase with hc | hc
      · exact absurd hc h2
      · rw [h3] at hc; cases hc
  · intro hnone
    rcases hfold with h | ⟨old2, h1, _, _, _⟩
    · rw [reapTick]; rw [h, hnone]
    · rw [hnone] at h1; cases h1
  · intro r2 hr2
    rcases hfold with h | ⟨old, h1, h2, h3, h4⟩
    · left
      rw [reapTick] at hr2
      rw [← h, hr2]
    · right
      rw [reapTick] at hr2
      rw [hr2] at h4
      have := Option.some.inj h4
      refine ⟨old, h1, h2, h3, this, ?_, ?_⟩
      · rw [this]; rfl
      · rw [this]; rfl

/-- **C9** (witness) — concrete tick at `now = 10`: the snapshot saw the
resource locked and expired at 5, but the user extended it to expire at
100 before the re-check; the current record has `lock_expires_at > now`,
so the tick leaves the current map untouched. -/
theorem auto_expire_tick_spec_witness :
    expiresLe extendedCurrent 10 = false ∧
    findRes (reapTick [staleSnapshot] [extendedCurrent] 10) 1 =
      findRes [extendedCurrent] 1 :=
  ⟨by decide,
   (auto_expire_tick_spec [staleSnapshot] [extendedCurrent] 10 1).1
     extendedCurrent rfl (Or.inr (by decide))⟩

/-- **C10** — when a claim arrives after the claim window closed
(reservation present, fulfilled, `claim_expires_at ≤ now`),
`claim_reservation` raises `ReservationClaimExpired` before any write, so
the reservation map is returned untouched (the `.error` result carries no
updated state and the model's `claim_reservation` never even receives the
resource map, mirroring the source, which touches no resource); the
removal of the expired-unclaimed reservation and the release of its locks
happen in Phase B of the fulfillment scheduler, which deletes the
reservation from the map and leaves each resource that held one of its
lock tokens unlocked. -/
theorem claim_expired_untouched (rvs : List Reservation)
    (rs : List Resource) (rid t : String) (now ct : Int) (r : Reservation)
    (x : Resource) (hresv : findResv rvs rid = some r)
    (hst : r.status = .fulfilled) (hexp : r.claim_expires_at = some ct)
    (hle : ct ≤ now) (hx : findRes rs x.id = some x)
    (hxt : x.lock_token = t) (htne : t ≠ "") (htok : t ∈ r.lock_tokens)
    (huniq : ∀ y ∈ rs, y.lock_token = t → y = x) :
    claim_reservation rvs rid now = .error .reservationClaimExpired ∧
    findResv (phaseB rvs rs rvs now).2 rid = none ∧
    ∃ x2, findRes (phaseB rvs rs rvs now).1 x.id = some x2 ∧
      x2.lock_token = "" := by
  have hclaimexp : claimExpLe r now = true := by
    rw [claimExpLe, hexp]
    simpa using hle
  have hrmem : r ∈ rvs := List.mem_of_find?_eq_some hresv
  have hrid : r.reservation_id = rid := by
    have := List.find?_some hresv
    simpa using this
  have hrE : r ∈ rvs.filter
      (fun y => y.status = RStatus.fulfilled && claimExpLe y now) :=
    List.mem_filter.mpr ⟨hrmem, by simp [hst, hclaimexp]⟩
  refine ⟨?_, ?_, ?_⟩
  · simp [claim_reservation, hresv, hst, hclaimexp]
  · exact phaseBFold_deletes now rid r hst hclaimexp _ (rs, rvs) hresv
      ⟨r, hrE, hrid⟩
  · exact phaseBFold_fires rs x t now hxt htne huniq r htok _ (rs, rvs)
      (fun y hy => Or.inl hy) (Or.inl hx) hrE

/-- **C10** (witness) — concrete run at `now = 60` with the fulfilled
reservation `fulfilledResv` (claim window closed at 50, holding token
`"T"` on resource 1) and catalog `[lockedDevice]`: the claim fails
`ReservationClaimExpired`, and Phase B deletes the reservation and leaves
resource 1 unlocked. -/
theorem claim_expired_untouched_witness :
    claim_reservation [fulfilledResv] "res_a" 60 =
      .error .reservationClaimExpired ∧
    findResv (phaseB [fulfilledResv] [lockedDevice] [fulfilledResv] 60).2
      "res_a" = none ∧
    ∃ x2, findRes
        (phaseB [fulfilledResv] [lockedDevice] [fulfilledResv] 60).1
        lockedDevice.id = some x2 ∧ x2.lock_token = "" :=
  claim_expired_untouched [fulfilledResv] [lockedDevice] "res_a" "T" 60 50
    fulfilledResv lockedDevice rfl rfl rfl (by decide) rfl rfl (by decide)
    (List.mem_singleton.mpr rfl)
    (fun y hy _ => by simpa using hy)

/-- **C8** — Phase C of a fulfillment-scheduler tick.  General part: for
every input, each reservation entry is either left exactly as it was
(non-pending, or its batch-lock attempt failed — `InsufficientResources`
merely skips to the next reservation) or was still pending at the
re-check and is rewritten to fulfilled with `fulfilled_at = now`,
`claim_expires_at = fulfilled_at + 60` and the locked resources' ids and
tokens as its payload.  Concrete parts, on a one-resource `ci` catalog:
(skip) with the earlier reservation asking for 2 resources and the later
for 1, the tick leaves the earlier one pending and fulfills the later
one — the queue does not stall; (FIFO) with both asking for 1, the tick
fulfills the earlier reservation and the later one stays pending —
attempts are made in ascending `created_at` order. -/
theorem phaseC_spec :
    (∀ (rs : List Resource) (rvs : List Reservation) (now : Int)
       (toks : Nat → String) (c : Nat) (i : String),
      findResv (phaseC rs rvs now toks c).2.1 i = findResv rvs i ∨
      ∃ old locked, findResv rvs i = some old ∧
        old.status = .pending ∧
        findResv (phaseC rs rvs now toks c).2.1 i =
          some (fulfilledWith old now locked) ∧
        (fulfilledWith old now locked).status = .fulfilled ∧
        (fulfilledWith old now locked).fulfilled_at = some now ∧
        (fulfilledWith old now locked).claim_expires_at = some (now + 60) ∧
        (fulfilledWith old now locked).resource_ids =
          locked.map (fun l => l.id) ∧
        (fulfilledWith old now locked).lock_tokens =
          locked.map (fun l => l.lock_token)) ∧
    (resvA.created_at < resvB.created_at ∧
     findResv (phaseC [ciResource] [resvA, resvB] 100 (fun _ => "tok")
       0).2.1 "res_A" = some resvA ∧
     findResv (phaseC [ciResource] [resvA, resvB] 100 (fun _ => "tok")
       0).2.1 "res_B" = some (fulfilledWith resvB 100 [ciResourceLocked])) ∧
    (resvA1.created_at < resvB.created_at ∧
     findResv (phaseC [ciResource] [resvA1, resvB] 100 (fun _ => "tok")
       0).2.1 "res_A" = some (fulfilledWith resvA1 100 [ciResourceLocked]) ∧
     findResv (phaseC [ciResource] [resvA1, resvB] 100 (fun _ => "tok")
       0).2.1 "res_B" = some resvB) := by
  refine ⟨?_, ⟨by decide, by rfl, by rfl⟩, ⟨by decide, by rfl, by rfl⟩⟩
  intro rs rvs now toks c i
  rcases foldl_phaseCOne_cases now toks
    (sortByCreated (rvs.filter (fun r => r.status = RStatus.pending)))
    (rs, rvs, c) i with h | ⟨old, locked, h1, h2, h3⟩
  · left; exact h
  · right
    exact ⟨old, locked, h1, h2, h3, rfl, rfl, rfl, rfl, rfl⟩

end Rentabot
